import Mathlib

/-!
# Verification of the `congreso_votos` voting-record parser

Shallow embedding of `src/analyze_voting.py` (the record parser/classifier
`read_voting_data` with its inner `categorize_result`) over `List Char`
strings, together with proofs of the spec's testable properties.

Python strings are modelled as `List Char`; a text file is modelled as the
list of its lines (Python's `for line in file`), each line a `List Char`.
-/

namespace CongresoVotos

/-- The whitespace set of Python's `str.strip()` / `str.isspace()`:
ASCII whitespace, the ASCII separator controls, NEL, NBSP and the Unicode
space separators. -/
def isPySpace (c : Char) : Bool :=
  [9, 10, 11, 12, 13, 28, 29, 30, 31, 32, 133, 160, 5760,
   8192, 8193, 8194, 8195, 8196, 8197, 8198, 8200, 8201, 8202,
   8232, 8233, 8239, 8287, 12288].contains c.toNat

/-- Drop leading Python whitespace. -/
def stripLeft (l : List Char) : List Char :=
  l.dropWhile (fun c => isPySpace c)

/-- Python's `str.strip()`: drop leading and trailing whitespace. -/
def pyStrip (l : List Char) : List Char :=
  (stripLeft (stripLeft l).reverse).reverse

/-- Character-wise uppercase table of Python's `str.upper()` restricted to
the ASCII and Latin-1 letters (the alphabet of the input format), plus
`ÿ → Ÿ` and `µ → Μ`.  (`ß`, whose Python uppercase is the two-character
string `SS`, is left unchanged; it cannot occur in the vote tokens the
classifier compares against.) -/
def upperTable : List (Char × Char) :=
  [('a', 'A'), ('b', 'B'), ('c', 'C'), ('d', 'D'), ('e', 'E'), ('f', 'F'),
   ('g', 'G'), ('h', 'H'), ('i', 'I'), ('j', 'J'), ('k', 'K'), ('l', 'L'),
   ('m', 'M'), ('n', 'N'), ('o', 'O'), ('p', 'P'), ('q', 'Q'), ('r', 'R'),
   ('s', 'S'), ('t', 'T'), ('u', 'U'), ('v', 'V'), ('w', 'W'), ('x', 'X'),
   ('y', 'Y'), ('z', 'Z'),
   ('à', 'À'), ('á', 'Á'), ('â', 'Â'), ('ã', 'Ã'), ('ä', 'Ä'), ('å', 'Å'),
   ('æ', 'Æ'), ('ç', 'Ç'), ('è', 'È'), ('é', 'É'), ('ê', 'Ê'), ('ë', 'Ë'),
   ('ì', 'Ì'), ('í', 'Í'), ('î', 'Î'), ('ï', 'Ï'), ('ð', 'Ð'), ('ñ', 'Ñ'),
   ('ò', 'Ò'), ('ó', 'Ó'), ('ô', 'Ô'), ('õ', 'Õ'), ('ö', 'Ö'), ('ø', 'Ø'),
   ('ù', 'Ù'), ('ú', 'Ú'), ('û', 'Û'), ('ü', 'Ü'), ('ý', 'Ý'), ('þ', 'Þ'),
   ('ÿ', 'Ÿ'), ('µ', 'Μ')]

/-- Lookup in an association list of characters (first match wins). -/
def upLookup (c : Char) : List (Char × Char) → Option Char
  | [] => none
  | (k, v) :: t => if c = k then some v else upLookup c t

/-- Uppercase one character per `upperTable`. -/
def pyUpperChar (c : Char) : Char :=
  (upLookup c upperTable).getD c

/-- Python's `str.upper()`, character-wise. -/
def pyUpper (l : List Char) : List Char :=
  l.map pyUpperChar

/-- A parsed voting record: `{'team': ..., 'name': ..., 'result': ...}`
as appended to `data` in `read_voting_data` (analyze_voting.py:42-46). -/
structure VotingRecord where
  team : List Char
  name : List Char
  result : List Char
deriving DecidableEq, Repr

/-- `result.strip().upper()` — the normalized copy of the raw vote token
that `categorize_result` (analyze_voting.py:17) classifies. -/
def normalizeTok (result : List Char) : List Char :=
  pyUpper (pyStrip result)

/-- `categorize_result` (analyze_voting.py:13-25): exact-match table over
the uppercase-trimmed raw vote token. -/
def categorize_result (result : List Char) : List Char :=
  if normalizeTok result = "SI".data ∨ normalizeTok result = "SI +++".data then
    "yes".data
  else if normalizeTok result = "NO".data ∨ normalizeTok result = "NO ---".data then
    "no".data
  else if normalizeTok result = "ABST".data ∨ normalizeTok result = "ABSTENCIÓN".data then
    "abs".data
  else
    "others".data

/-- Python's `content.split(',')`: split on every comma, keeping empty
pieces; always returns at least one piece. -/
def splitComma : List Char → List (List Char)
  | [] => [[]]
  | c :: cs =>
    if c = ',' then
      [] :: splitComma cs
    else
      match splitComma cs with
      | [] => [[c]]
      | p :: ps => (c :: p) :: ps

/-- The raw comma-separated pieces of a bracket-delimited stripped line:
`content = line[1:-1]` then `content.split(',')` (analyze_voting.py:32-33).
The argument is the already-stripped line. -/
def rawTokens (l : List Char) : List (List Char) :=
  splitComma ((l.drop 1).dropLast)

/-- `parts = [part.strip() for part in content.split(',')]`
(analyze_voting.py:33).  The argument is the already-stripped line. -/
def lineParts (l : List Char) : List (List Char) :=
  (rawTokens l).map pyStrip

/-- `', '.join(parts[1:-1])` (analyze_voting.py:38). -/
def joinName (parts : List (List Char)) : List Char :=
  List.intercalate ", ".data ((parts.drop 1).dropLast)

/-- The per-line body of `read_voting_data`'s loop (analyze_voting.py:29-46):
strip the line, keep it only if bracket-delimited with at least 3
comma-separated parts, and build the record. -/
def parseLine (line : List Char) : Option VotingRecord :=
  if (pyStrip line).head? = some '[' ∧ (pyStrip line).getLast? = some ']' then
    if 3 ≤ (lineParts (pyStrip line)).length then
      some ⟨(lineParts (pyStrip line)).headD [], joinName (lineParts (pyStrip line)),
            categorize_result ((lineParts (pyStrip line)).getLastD [])⟩
    else
      none
  else
    none

/-- `read_voting_data` (analyze_voting.py:27-48) on the list of the file's
lines: the rows of the returned DataFrame, in order. -/
def read_voting_data (lines : List (List Char)) : List VotingRecord :=
  lines.filterMap parseLine

example : read_voting_data ["[APP, ACUÑA PERALTA, MARÍA GRIMANEZA, SI +++]".data]
    = [⟨"APP".data, "ACUÑA PERALTA, MARÍA GRIMANEZA".data, "yes".data⟩] := by decide

example : read_voting_data ["[PP, CALLE LOBATÓN, DIGNA, LP]".data]
    = [⟨"PP".data, "CALLE LOBATÓN, DIGNA".data, "others".data⟩] := by decide

example : categorize_result " si +++ ".data = "yes".data := by decide

example : categorize_result "abstención".data = "abs".data := by decide

example : read_voting_data ["hello".data, "".data, "[a, b]".data] = [] := by decide

/-! ## Structural lemmas about the parser -/

theorem splitComma_ne_nil (l : List Char) : splitComma l ≠ [] := by
  cases l with
  | nil => simp [splitComma]
  | cons c cs =>
    unfold splitComma
    split
    · simp
    · cases h : splitComma cs <;> simp

/-- Eliminating a successful `parseLine`: the accepted line was
bracket-delimited with at least three parts, and the record is built from
the parts exactly as in analyze_voting.py:36-46. -/
theorem parseLine_some_elim {line : List Char} {r : VotingRecord}
    (h : parseLine line = some r) :
    ((pyStrip line).head? = some '[' ∧ (pyStrip line).getLast? = some ']') ∧
      3 ≤ (lineParts (pyStrip line)).length ∧
      r = ⟨(lineParts (pyStrip line)).headD [], joinName (lineParts (pyStrip line)),
           categorize_result ((lineParts (pyStrip line)).getLastD [])⟩ := by
  unfold parseLine at h
  split_ifs at h with hb hn
  exact ⟨hb, hn, (Option.some.injEq _ _ ▸ h).symm⟩

/-- The image of `categorize_result` is the four category strings. -/
theorem categorize_result_mem (t : List Char) :
    categorize_result t = "yes".data ∨ categorize_result t = "no".data ∨
      categorize_result t = "abs".data ∨ categorize_result t = "others".data := by
  unfold categorize_result
  split_ifs <;> simp

/-! ## Normalization lemmas: stripping and uppercasing -/

theorem upLookup_mem {c u : Char} :
    ∀ t : List (Char × Char), upLookup c t = some u → (c, u) ∈ t := by
  intro t
  induction t with
  | nil => intro h; simp [upLookup] at h
  | cons p tl ih =>
    obtain ⟨k, v⟩ := p
    intro h
    unfold upLookup at h
    split_ifs at h with hc
    · injection h with h
      subst hc; subst h
      exact List.mem_cons_self _ _
    · exact List.mem_cons_of_mem _ (ih h)

theorem upperTable_not_space :
    ∀ p ∈ upperTable, isPySpace p.1 = false ∧ isPySpace p.2 = false := by decide

theorem upperTable_val_not_key :
    ∀ p ∈ upperTable, upLookup p.2 upperTable = none := by decide

theorem isPySpace_pyUpperChar (c : Char) : isPySpace (pyUpperChar c) = isPySpace c := by
  unfold pyUpperChar
  cases h : upLookup c upperTable with
  | none => rfl
  | some u =>
    have hm := upLookup_mem _ h
    have h1 := (upperTable_not_space _ hm).1
    have h2 := (upperTable_not_space _ hm).2
    simp only [Option.getD_some]
    rw [h2, h1]

theorem pyUpperChar_idem (c : Char) : pyUpperChar (pyUpperChar c) = pyUpperChar c := by
  unfold pyUpperChar
  cases h : upLookup c upperTable with
  | none => simp [h]
  | some u =>
    have hnone := upperTable_val_not_key (c, u) (upLookup_mem _ h)
    simp [h, hnone]

theorem pyUpper_idem : ∀ l : List Char, pyUpper (pyUpper l) = pyUpper l := by
  intro l
  induction l with
  | nil => rfl
  | cons c t ih =>
    simp only [pyUpper, List.map_cons] at *
    rw [pyUpperChar_idem, ih]

theorem pyUpper_reverse (l : List Char) : (pyUpper l).reverse = pyUpper l.reverse := by
  unfold pyUpper
  exact (List.map_reverse _ _).symm

theorem stripLeft_head? : ∀ (l : List Char) {c : Char},
    (stripLeft l).head? = some c → isPySpace c = false := by
  intro l
  induction l with
  | nil => intro c h; simp [stripLeft] at h
  | cons a t ih =>
    intro c h
    rw [stripLeft, List.dropWhile_cons] at h
    split_ifs at h with ha
    · exact ih (by simpa [stripLeft] using h)
    · simp only [List.head?_cons, Option.some.injEq] at h
      subst h
      simpa using ha

theorem stripLeft_idem (l : List Char) : stripLeft (stripLeft l) = stripLeft l := by
  induction l with
  | nil => rfl
  | cons a t ih =>
    by_cases ha : isPySpace a
    · simpa [stripLeft, List.dropWhile_cons, ha] using ih
    · simp [stripLeft, List.dropWhile_cons, ha]

theorem getLast?_of_suffix {α : Type} {s m : List α} (h : s <:+ m) (hs : s ≠ []) :
    s.getLast? = m.getLast? := by
  obtain ⟨t, rfl⟩ := h
  rw [List.getLast?_append]
  cases hx : s.getLast? with
  | none => exact absurd (List.getLast?_eq_none_iff.mp hx) hs
  | some x => rfl

theorem stripLeft_pyStrip (l : List Char) : stripLeft (pyStrip l) = pyStrip l := by
  cases hh : (pyStrip l).head? with
  | none =>
    rw [List.head?_eq_none_iff.mp hh]
    rfl
  | some c =>
    have hY : stripLeft (stripLeft l).reverse ≠ [] := by
      intro h0
      rw [show pyStrip l = (stripLeft (stripLeft l).reverse).reverse from rfl, h0] at hh
      simp at hh
    have h1 : (pyStrip l).head? = (stripLeft (stripLeft l).reverse).getLast? := by
      rw [show pyStrip l = (stripLeft (stripLeft l).reverse).reverse from rfl,
        List.head?_reverse]
    have h2 : (stripLeft (stripLeft l).reverse).getLast? = ((stripLeft l).reverse).getLast? :=
      getLast?_of_suffix (List.dropWhile_suffix _) hY
    have h3 : ((stripLeft l).reverse).getLast? = (stripLeft l).head? := List.getLast?_reverse _
    have hc : isPySpace c = false := stripLeft_head? l (by rw [← h3, ← h2, ← h1, hh])
    cases hp : pyStrip l with
    | nil => rfl
    | cons a t =>
      rw [hp] at hh
      simp only [List.head?_cons, Option.some.injEq] at hh
      subst hh
      simp [stripLeft, List.dropWhile_cons, hc]

theorem pyStrip_idem (l : List Char) : pyStrip (pyStrip l) = pyStrip l := by
  show (stripLeft (stripLeft (pyStrip l)).reverse).reverse = pyStrip l
  rw [stripLeft_pyStrip l]
  have hrev : (pyStrip l).reverse = stripLeft (stripLeft l).reverse := by
    rw [show pyStrip l = (stripLeft (stripLeft l).reverse).reverse from rfl,
      List.reverse_reverse]
  rw [hrev, stripLeft_idem]
  rfl

theorem stripLeft_pyUpper (l : List Char) : stripLeft (pyUpper l) = pyUpper (stripLeft l) := by
  unfold stripLeft pyUpper
  have hp : ((fun c => isPySpace c) ∘ pyUpperChar) = (fun c => isPySpace c) :=
    funext fun c => isPySpace_pyUpperChar c
  rw [List.dropWhile_map, hp]

theorem pyStrip_pyUpper (l : List Char) : pyStrip (pyUpper l) = pyUpper (pyStrip l) := by
  unfold pyStrip
  rw [stripLeft_pyUpper, pyUpper_reverse, stripLeft_pyUpper, pyUpper_reverse]

theorem normalizeTok_normalize (t : List Char) :
    normalizeTok (pyUpper (pyStrip t)) = normalizeTok t := by
  unfold normalizeTok
  rw [pyStrip_pyUpper, pyStrip_idem, pyUpper_idem]

theorem categorize_result_normalize (t : List Char) :
    categorize_result (pyUpper (pyStrip t)) = categorize_result t := by
  unfold categorize_result
  rw [normalizeTok_normalize]

theorem headD_map_pyStrip {xs : List (List Char)} (h : xs ≠ []) :
    (xs.map pyStrip).headD [] = pyStrip (xs.headD []) := by
  cases xs with
  | nil => exact absurd rfl h
  | cons a t => rfl

/-! ## Claim theorems: parsing -/

/-- C1: every input line whose trimmed form is bracket-delimited and whose
bracket-stripped content splits on `,` into at least 3 trimmed tokens
yields exactly one record: its team is the first token, its name is the
middle tokens rejoined with `", "`, and its vote category is
`categorize_result` of the last token. -/
theorem C1_wellformed_line_parses (line : List Char)
    (h1 : (pyStrip line).head? = some '[')
    (h2 : (pyStrip line).getLast? = some ']')
    (h3 : 3 ≤ (lineParts (pyStrip line)).length) :
    read_voting_data [line] =
      [⟨(lineParts (pyStrip line)).headD [],
        joinName (lineParts (pyStrip line)),
        categorize_result ((lineParts (pyStrip line)).getLastD [])⟩] := by
  simp [read_voting_data, parseLine, h1, h2, h3]

/-- Witness for C1: the spec's example line
`[APP, ACUÑA PERALTA, MARÍA GRIMANEZA, SI +++]` yields team `APP`, the
comma-containing name reconstructed, and category `yes`. -/
theorem C1_wellformed_line_parses_witness :
    read_voting_data ["[APP, ACUÑA PERALTA, MARÍA GRIMANEZA, SI +++]".data] =
      [⟨"APP".data, "ACUÑA PERALTA, MARÍA GRIMANEZA".data, "yes".data⟩] :=
  (C1_wellformed_line_parses "[APP, ACUÑA PERALTA, MARÍA GRIMANEZA, SI +++]".data
    (by decide) (by decide) (by decide)).trans (by decide)

/-- C4: a line whose trimmed form is not bracket-delimited produces no
record (and, the embedding being total, no error). -/
theorem C4_non_bracketed_skipped (line : List Char)
    (h : ¬ ((pyStrip line).head? = some '[' ∧ (pyStrip line).getLast? = some ']')) :
    read_voting_data [line] = [] := by
  simp only [read_voting_data, List.filterMap_cons, parseLine]
  rw [if_neg h]
  simp

/-- Witness for C4 at the plain line `hello`. -/
theorem C4_non_bracketed_skipped_witness :
    read_voting_data ["hello".data] = [] :=
  C4_non_bracketed_skipped "hello".data (by decide)

/-- C5: a bracket-delimited line whose content splits into fewer than 3
comma-separated tokens produces no record (and no error). -/
theorem C5_short_line_skipped (line : List Char)
    (h1 : (pyStrip line).head? = some '[')
    (h2 : (pyStrip line).getLast? = some ']')
    (h3 : (lineParts (pyStrip line)).length < 3) :
    read_voting_data [line] = [] := by
  have h3' : ¬ 3 ≤ (lineParts (pyStrip line)).length := by omega
  simp [read_voting_data, parseLine, h1, h2, h3']

/-- Witness for C5 at the two-token line `[a, b]`. -/
theorem C5_short_line_skipped_witness :
    read_voting_data ["[a, b]".data] = [] :=
  C5_short_line_skipped "[a, b]".data (by decide) (by decide) (by decide)

/-- C6: parsing is total (the embedding is a total function on arbitrary
line lists) and malformed input degrades by omission: a line that parses
to no record is simply dropped, wherever it sits in the file. -/
theorem C6_malformed_degrades_by_omission (pre post : List (List Char))
    (bad : List Char) (h : parseLine bad = none) :
    read_voting_data (pre ++ bad :: post) = read_voting_data (pre ++ post) := by
  simp [read_voting_data, List.filterMap_append, List.filterMap_cons, h]

/-- Witness for C6: an arbitrary-content line between two records is
dropped without affecting them. -/
theorem C6_malformed_degrades_by_omission_witness :
    parseLine "not a vote ]][,,".data = none ∧
      read_voting_data ["[A, B, SI]".data, "not a vote ]][,,".data, "[C, D, NO]".data] =
        read_voting_data ["[A, B, SI]".data, "[C, D, NO]".data] :=
  ⟨by decide,
   C6_malformed_degrades_by_omission ["[A, B, SI]".data] ["[C, D, NO]".data]
     "not a vote ]][,,".data (by decide)⟩

/-- C9: the parser is an order-preserving filter-map over its input lines:
the records of `line :: lines` are the (zero or one) records of `line`
followed by the records of `lines`, and an empty input gives no records. -/
theorem C9_order_preserving_filter_map :
    read_voting_data [] = [] ∧
      ∀ (line : List Char) (lines : List (List Char)),
        read_voting_data (line :: lines) =
          (parseLine line).toList ++ read_voting_data lines := by
  refine ⟨rfl, fun line lines => ?_⟩
  cases h : parseLine line <;> simp [read_voting_data, List.filterMap_cons, h]

/-- C2: vote-token classification is an exact-match table over the
uppercase-trimmed raw token: `yes` iff the normalized token is exactly
`SI` or `SI +++`, `no` iff exactly `NO` or `NO ---`, `abs` iff exactly
`ABST` or `ABSTENCIÓN`, and `others` for every remaining string; in
particular `LP` and `aus` classify as `others`. -/
theorem C2_exact_match_table :
    (∀ s : List Char,
      (categorize_result s = "yes".data ↔
        pyUpper (pyStrip s) = "SI".data ∨ pyUpper (pyStrip s) = "SI +++".data) ∧
      (categorize_result s = "no".data ↔
        pyUpper (pyStrip s) = "NO".data ∨ pyUpper (pyStrip s) = "NO ---".data) ∧
      (categorize_result s = "abs".data ↔
        pyUpper (pyStrip s) = "ABST".data ∨ pyUpper (pyStrip s) = "ABSTENCIÓN".data) ∧
      (categorize_result s = "others".data ↔
        ¬(pyUpper (pyStrip s) = "SI".data ∨ pyUpper (pyStrip s) = "SI +++".data ∨
          pyUpper (pyStrip s) = "NO".data ∨ pyUpper (pyStrip s) = "NO ---".data ∨
          pyUpper (pyStrip s) = "ABST".data ∨ pyUpper (pyStrip s) = "ABSTENCIÓN".data))) ∧
    categorize_result "LP".data = "others".data ∧
    categorize_result "aus".data = "others".data := by
  refine ⟨fun s => ?_, by decide, by decide⟩
  unfold categorize_result normalizeTok
  generalize pyUpper (pyStrip s) = r
  split_ifs with h1 h2 h3
  · rcases h1 with h | h <;> subst h <;> decide
  · rcases h2 with h | h <;> subst h <;> decide
  · rcases h3 with h | h <;> subst h <;> decide
  · refine ⟨⟨fun hx => absurd hx (by decide), fun hx => absurd hx h1⟩,
      ⟨fun hx => absurd hx (by decide), fun hx => absurd hx h2⟩,
      ⟨fun hx => absurd hx (by decide), fun hx => absurd hx h3⟩,
      ⟨fun _ => ?_, fun _ => rfl⟩⟩
    rintro (h | h | h | h | h | h)
    exacts [h1 (Or.inl h), h1 (Or.inr h), h2 (Or.inl h), h2 (Or.inr h),
      h3 (Or.inl h), h3 (Or.inr h)]

/-- C7 counterexample: the parser accepts `[, A, SI]` and constructs a
record whose group is the empty string, so the non-emptiness invariant
fails on the code as stated. -/
theorem C7_counterexample :
    ¬ ∀ (line : List Char) (r : VotingRecord),
        parseLine line = some r → r.team ≠ [] ∧ r.name ≠ [] := by
  intro h
  exact (h "[, A, SI]".data ⟨[], "A".data, "yes".data⟩ (by decide)).1 rfl

/-- C7 amended: the parser enforces no non-emptiness invariant on group or
name (both can be empty, as the counterexample shows); the invariant every
constructed record does satisfy is that its vote category is one of the
four category strings. -/
theorem C7_amended_record_invariant (line : List Char) (r : VotingRecord)
    (h : parseLine line = some r) :
    r.result = "yes".data ∨ r.result = "no".data ∨
      r.result = "abs".data ∨ r.result = "others".data := by
  obtain ⟨-, -, rfl⟩ := parseLine_some_elim h
  exact categorize_result_mem _

/-- C3: classification is case-insensitive and insensitive to edge
whitespace: classifying `s` gives the same category as classifying the
uppercase of `s` with edge whitespace stripped; in particular ` si +++ `
and `SI +++` classify identically. -/
theorem C3_case_whitespace_insensitive :
    (∀ s : List Char, categorize_result s = categorize_result (pyUpper (pyStrip s))) ∧
      categorize_result " si +++ ".data = categorize_result "SI +++".data :=
  ⟨fun s => (categorize_result_normalize s).symm, by decide⟩

set_option maxHeartbeats 1000000 in
/-- C10: normalization touches only the vote token — in every produced
record the team is the first raw token merely edge-trimmed, the name is
the trimmed middle tokens rejoined with `", "`, with no case folding on
either, while uppercasing (together with trimming) is applied solely to
the copy of the last token used for classification. -/
theorem C10_normalization_only_vote_token (line : List Char) (r : VotingRecord)
    (h : parseLine line = some r) :
    r.team = pyStrip ((rawTokens (pyStrip line)).headD []) ∧
      r.name = List.intercalate ", ".data
        ((((rawTokens (pyStrip line)).map pyStrip).drop 1).dropLast) ∧
      r.result = categorize_result
        (pyUpper (pyStrip (((rawTokens (pyStrip line)).map pyStrip).getLastD []))) := by
  obtain ⟨-, -, rfl⟩ := parseLine_some_elim h
  refine ⟨?_, rfl, ?_⟩
  · show (lineParts (pyStrip line)).headD [] = _
    unfold lineParts
    exact headD_map_pyStrip (by unfold rawTokens; exact splitComma_ne_nil _)
  · show categorize_result ((lineParts (pyStrip line)).getLastD []) = _
    unfold lineParts
    exact (categorize_result_normalize _).symm

/-- Witness for C10: the mixed-case line `[app, Pérez, luis, si]` keeps
team `app` and name `Pérez, luis` exactly as written, while the vote
token `si` classifies through its uppercased copy. -/
theorem C10_normalization_only_vote_token_witness :
    (⟨"app".data, "Pérez, luis".data, "yes".data⟩ : VotingRecord).team =
        pyStrip ((rawTokens (pyStrip "[app, Pérez, luis, si]".data)).headD []) ∧
      (⟨"app".data, "Pérez, luis".data, "yes".data⟩ : VotingRecord).name =
        List.intercalate ", ".data
          ((((rawTokens (pyStrip "[app, Pérez, luis, si]".data)).map pyStrip).drop 1).dropLast) ∧
      (⟨"app".data, "Pérez, luis".data, "yes".data⟩ : VotingRecord).result =
        categorize_result (pyUpper (pyStrip
          (((rawTokens (pyStrip "[app, Pérez, luis, si]".data)).map pyStrip).getLastD []))) :=
  C10_normalization_only_vote_token "[app, Pérez, luis, si]".data
    ⟨"app".data, "Pérez, luis".data, "yes".data⟩ rfl

/-! ## CSV serialization and reloading, modelled from the spec

`main` saves the records with `df.to_csv("voting_analysis.csv", ...)`
(analyze_voting.py:311); neither the CSV writer nor any reloader is code of
this repository, so both are modelled from the spec: columns
`team,name,result`, standard CSV quoting (a field containing a comma, a
quote or a line break is wrapped in quotes, inner quotes doubled). -/

/-- A field needs quoting iff it contains a comma, a quote or a line break. -/
def csvNeedsQuote (f : List Char) : Bool :=
  f.any (fun c => c == ',' || c == '"' || c == '\n' || c == '\r')

/-- Double every quote of a field (CSV quoting). -/
def csvEscape : List Char → List Char
  | [] => []
  | c :: t => if c = '"' then '"' :: '"' :: csvEscape t else c :: csvEscape t

/-- Modelled from the spec: encode one CSV field (the writer is pandas
`to_csv`, not part of the repository): quote it when needed. -/
def csvEncodeField (f : List Char) : List Char :=
  if csvNeedsQuote f then '"' :: (csvEscape f ++ ['"']) else f

/-- Modelled from the spec: one CSV row, the encoded fields joined with `,`. -/
def csvEncodeRow : List (List Char) → List Char
  | [] => []
  | [f] => csvEncodeField f
  | f :: fs => csvEncodeField f ++ ',' :: csvEncodeRow fs

/-- Serializing one parsed record to its row of the output CSV
`team,name,result`. -/
def serializeRecord (r : VotingRecord) : List Char :=
  csvEncodeRow [r.team, r.name, r.result]

/-- Read a quoted field body: undouble inner quotes, stop at the closing
quote; returns the field and the rest of the row. -/
def csvParseQuoted : List Char → List Char × List Char
  | [] => ([], [])
  | c :: cs =>
    if c = '"' then
      match cs with
      | [] => ([], [])
      | d :: ds =>
        if d = '"' then
          ('"' :: (csvParseQuoted ds).1, (csvParseQuoted ds).2)
        else
          ([], cs)
    else
      (c :: (csvParseQuoted cs).1, (csvParseQuoted cs).2)

/-- Read an unquoted field: stop before the next comma. -/
def csvParseUnquoted : List Char → List Char × List Char
  | [] => ([], [])
  | c :: cs =>
    if c = ',' then ([], c :: cs)
    else (c :: (csvParseUnquoted cs).1, (csvParseUnquoted cs).2)

/-- Read one CSV field, quoted or not. -/
def csvParseField : List Char → List Char × List Char
  | [] => ([], [])
  | c :: cs => if c = '"' then csvParseQuoted cs else csvParseUnquoted (c :: cs)

theorem csvParseQuoted_cons_quote_quote (cs : List Char) :
    csvParseQuoted ('"' :: '"' :: cs) =
      ('"' :: (csvParseQuoted cs).1, (csvParseQuoted cs).2) := by
  rw [csvParseQuoted.eq_def]
  simp

theorem csvParseQuoted_cons_quote_other (c : Char) (cs : List Char) (hc : ¬ c = '"') :
    csvParseQuoted ('"' :: c :: cs) = ([], c :: cs) := by
  rw [csvParseQuoted.eq_def]
  simp [hc]

theorem csvParseQuoted_cons_other (c : Char) (cs : List Char) (hc : ¬ c = '"') :
    csvParseQuoted (c :: cs) = (c :: (csvParseQuoted cs).1, (csvParseQuoted cs).2) := by
  rw [csvParseQuoted.eq_def]
  simp [hc]

theorem csvParseUnquoted_cons_comma (cs : List Char) :
    csvParseUnquoted (',' :: cs) = ([], ',' :: cs) := by
  rw [csvParseUnquoted.eq_def]
  simp

theorem csvParseUnquoted_cons_other (c : Char) (cs : List Char) (hc : ¬ c = ',') :
    csvParseUnquoted (c :: cs) =
      (c :: (csvParseUnquoted cs).1, (csvParseUnquoted cs).2) := by
  rw [csvParseUnquoted.eq_def]
  simp [hc]

theorem csvParseField_cons_quote (cs : List Char) :
    csvParseField ('"' :: cs) = csvParseQuoted cs := by
  rw [csvParseField.eq_def]
  simp

theorem csvParseField_cons_other (c : Char) (cs : List Char) (hc : ¬ c = '"') :
    csvParseField (c :: cs) = csvParseUnquoted (c :: cs) := by
  rw [csvParseField.eq_def]
  simp [hc]

theorem csvParseQuoted_rest_le : ∀ s : List Char, (csvParseQuoted s).2.length ≤ s.length := by
  intro s
  induction s using csvParseQuoted.induct with
  | case1 => simp [csvParseQuoted]
  | case2 => decide
  | case3 cs ih =>
    rw [csvParseQuoted_cons_quote_quote]
    simp only [List.length_cons]
    omega
  | case4 c cs hc =>
    rw [csvParseQuoted_cons_quote_other c cs hc]
    simp
  | case5 c cs hc ih =>
    rw [csvParseQuoted_cons_other c cs hc]
    simp only [List.length_cons]
    omega

theorem csvParseUnquoted_rest_le : ∀ s : List Char, (csvParseUnquoted s).2.length ≤ s.length := by
  intro s
  induction s with
  | nil => simp [csvParseUnquoted]
  | cons c cs ih =>
    by_cases hc : c = ','
    · subst hc
      rw [csvParseUnquoted_cons_comma]
    · rw [csvParseUnquoted_cons_other c cs hc]
      simp only [List.length_cons]
      omega

theorem csvParseField_rest_le (s : List Char) : (csvParseField s).2.length ≤ s.length := by
  cases s with
  | nil => simp [csvParseField]
  | cons c cs =>
    by_cases hc : c = '"'
    · subst hc
      rw [csvParseField_cons_quote]
      exact Nat.le_succ_of_le (csvParseQuoted_rest_le cs)
    · rw [csvParseField_cons_other c cs hc]
      exact csvParseUnquoted_rest_le (c :: cs)

/-- Modelled from the spec: split one CSV row into its fields (the reader
reloading the output CSV is not part of the repository). -/
def csvParseRow (s : List Char) : List (List Char) :=
  if h : (csvParseField s).2.head? = some ',' then
    (csvParseField s).1 :: csvParseRow (csvParseField s).2.tail
  else
    [(csvParseField s).1]
termination_by s.length
decreasing_by
  have h1 := csvParseField_rest_le s
  have h2 : (csvParseField s).2 ≠ [] := by
    intro h0
    rw [h0] at h
    simp at h
  have h3 : (csvParseField s).2.tail.length = (csvParseField s).2.length - 1 :=
    List.length_tail _
  have h4 : 0 < (csvParseField s).2.length := List.length_pos.mpr h2
  omega

/-- Modelled from the spec: reload one CSV row as a record with fields
team, name, result. -/
def reloadRecord (s : List Char) : Option VotingRecord :=
  match csvParseRow s with
  | [t, n, res] => some ⟨t, n, res⟩
  | _ => none

/-! ## CSV round-trip lemmas -/

theorem csvParseUnquoted_append (f rest : List Char)
    (hrest : rest.head? = some ',' ∨ rest = []) :
    csvNeedsQuote f = false → csvParseUnquoted (f ++ rest) = (f, rest) := by
  induction f with
  | nil =>
    intro _
    rcases hrest with h | h
    · cases rest with
      | nil => simp at h
      | cons r t =>
        simp only [List.head?_cons, Option.some.injEq] at h
        subst h
        simpa using csvParseUnquoted_cons_comma t
    · subst h
      simp [csvParseUnquoted]
  | cons a t ih =>
    intro hf
    rw [csvNeedsQuote, List.any_cons, Bool.or_eq_false_iff] at hf
    have ha : ¬ a = ',' := by
      intro h0
      subst h0
      simp at hf
    have ht : csvNeedsQuote t = false := hf.2
    rw [List.cons_append, csvParseUnquoted_cons_other a _ ha, ih ht]

theorem csvParseQuoted_append (f rest : List Char)
    (hrest : rest.head? = some ',' ∨ rest = []) :
    csvParseQuoted (csvEscape f ++ ('"' :: rest)) = (f, rest) := by
  induction f with
  | nil =>
    simp only [csvEscape, List.nil_append]
    rcases hrest with h | h
    · cases rest with
      | nil => simp at h
      | cons d ds =>
        simp only [List.head?_cons, Option.some.injEq] at h
        subst h
        exact csvParseQuoted_cons_quote_other ',' ds (by decide)
    · subst h
      decide
  | cons a t ih =>
    by_cases ha : a = '"'
    · subst ha
      have he : csvEscape ('"' :: t) = '"' :: '"' :: csvEscape t := by
        simp [csvEscape]
      rw [he, List.cons_append, List.cons_append, csvParseQuoted_cons_quote_quote, ih]
    · simp only [csvEscape, if_neg ha, List.cons_append]
      rw [csvParseQuoted_cons_other a _ ha, ih]

theorem csvParseField_encode (f rest : List Char)
    (hrest : rest.head? = some ',' ∨ rest = []) :
    csvParseField (csvEncodeField f ++ rest) = (f, rest) := by
  unfold csvEncodeField
  split_ifs with hq
  · have hl : ('"' :: (csvEscape f ++ ['"'])) ++ rest = '"' :: (csvEscape f ++ ('"' :: rest)) := by
      simp
    rw [hl, csvParseField_cons_quote]
    exact csvParseQuoted_append f rest hrest
  · cases f with
    | nil =>
      simp only [List.nil_append]
      rcases hrest with h | h
      · cases rest with
        | nil => simp at h
        | cons d ds =>
          simp only [List.head?_cons, Option.some.injEq] at h
          subst h
          rw [csvParseField_cons_other ',' ds (by decide)]
          exact csvParseUnquoted_cons_comma ds
      · subst h
        simp [csvParseField]
    | cons a t =>
      have ha : ¬ a = '"' := by
        intro h0
        subst h0
        simp [csvNeedsQuote] at hq
      rw [List.cons_append, csvParseField_cons_other a _ ha]
      exact csvParseUnquoted_append (a :: t) rest hrest (by simpa using hq)

theorem csvParseRow_encode : ∀ fs : List (List Char), fs ≠ [] →
    csvParseRow (csvEncodeRow fs) = fs := by
  intro fs
  induction fs with
  | nil => intro h; exact absurd rfl h
  | cons f fs ih =>
    intro _
    cases fs with
    | nil =>
      have hp : csvParseField (csvEncodeField f ++ []) = (f, []) :=
        csvParseField_encode f [] (Or.inr rfl)
      rw [List.append_nil] at hp
      unfold csvParseRow
      rw [show csvEncodeRow [f] = csvEncodeField f from rfl, hp]
      simp
    | cons g t =>
      have hp := csvParseField_encode f (',' :: csvEncodeRow (g :: t)) (Or.inl rfl)
      unfold csvParseRow
      rw [show csvEncodeRow (f :: g :: t) = csvEncodeField f ++ ',' :: csvEncodeRow (g :: t)
        from rfl, hp]
      simp [ih (by simp)]

theorem reload_serialize (r : VotingRecord) : reloadRecord (serializeRecord r) = some r := by
  obtain ⟨t, n, res⟩ := r
  show reloadRecord (csvEncodeRow [t, n, res]) = some ⟨t, n, res⟩
  unfold reloadRecord
  rw [csvParseRow_encode [t, n, res] (by simp)]

/-- C8: round trip — serializing any sequence of parsed records to the
output CSV rows with columns `team,name,result` and reloading each row
yields back the same team, name and category for every record, exactly. -/
theorem C8_csv_round_trip :
    csvEncodeRow ["team".data, "name".data, "result".data] = "team,name,result".data ∧
      ∀ recs : List VotingRecord,
        recs.map (fun r => reloadRecord (serializeRecord r)) = recs.map some := by
  refine ⟨by decide, fun recs => ?_⟩
  induction recs with
  | nil => rfl
  | cons r t ih => simp [reload_serialize, ih]

/-- Witness for the amended C7 at a concrete accepted line. -/
theorem C7_amended_record_invariant_witness :
    (⟨"A".data, "B".data, "yes".data⟩ : VotingRecord).result = "yes".data ∨
      (⟨"A".data, "B".data, "yes".data⟩ : VotingRecord).result = "no".data ∨
      (⟨"A".data, "B".data, "yes".data⟩ : VotingRecord).result = "abs".data ∨
      (⟨"A".data, "B".data, "yes".data⟩ : VotingRecord).result = "others".data :=
  C7_amended_record_invariant "[A, B, SI]".data _ (by decide)

end CongresoVotos
